import Mathlib

/-!
Shallow embedding of the configuration engine of libinput-gestures-qt
(src/libinput_gestures_qt/main.py).

Strings are modelled as `List Char`; a configuration document is a list of
lines, each line carrying its trailing newline character exactly as produced
by Python's `readlines`.  Python code that can raise an uncaught exception
(IndexError / KeyError) is modelled with `Option`, where `none` stands for
the raised exception.
-/

/-- characters of a string literal: the `List Char` view used throughout. -/
def chars (s : String) : List Char := s.data

/-- whitespace in the sense of Python's `str.split` with no argument. -/
def isPySpace (c : Char) : Bool :=
  c = ' ' || c = '\t' || c = '\n' || c = '\r' || c = Char.ofNat 11 || c = Char.ofNat 12

/-- accumulator form of Python `str.split()`: split on runs of whitespace,
producing no empty tokens; `cur` holds the (reversed) token being read. -/
def pySplitAux (cur : List Char) : List Char → List (List Char)
  | [] => if cur = [] then [] else [cur.reverse]
  | c :: cs =>
    if isPySpace c then
      if cur = [] then pySplitAux [] cs else cur.reverse :: pySplitAux [] cs
    else pySplitAux (c :: cur) cs

/-- Python `str.split()` on whitespace. -/
def pySplit (l : List Char) : List (List Char) := pySplitAux [] l

/-- Python `needle in haystack` substring test. -/
def containsSub (needle : List Char) : List Char → Bool
  | [] => needle.isPrefixOf []
  | c :: cs => needle.isPrefixOf (c :: cs) || containsSub needle cs

/-- Python `line.replace('\t', ' ')`. -/
def subTab (l : List Char) : List Char :=
  l.map (fun c => if c = '\t' then ' ' else c)

/-- Python `str.lower()` on each character (source strings are ASCII). -/
def pyLower (l : List Char) : List Char := l.map Char.toLower

/-- decimal rendering of a natural number, Python `str(n)` for `n >= 0`. -/
def natStr (n : Nat) : List Char := (Nat.repr n).data

/-- lookup in a Python dict modelled as an association list with unique keys;
`none` models a raised KeyError. -/
def pyLookup : List (List Char × List Char) → List Char → Option (List Char)
  | [], _ => none
  | (k, v) :: rest, key => if k = key then some v else pyLookup rest key

/-- the `keys_mapping` dict of main.py: lowered Qt key names to xdotool names. -/
def keys_mapping : List (List Char × List Char) := [
  (chars "meta", chars "super"),
  (chars "pgdown", chars "Page_Down"),
  (chars "pgup", chars "Page_Up"),
  (chars "right", chars "Right"),
  (chars "left", chars "Left"),
  (chars "up", chars "Up"),
  (chars "down", chars "Down"),
  (chars "f1", chars "F1"),
  (chars "f2", chars "F2"),
  (chars "f3", chars "F3"),
  (chars "f4", chars "F4"),
  (chars "f5", chars "F5"),
  (chars "f6", chars "F6"),
  (chars "f7", chars "F7"),
  (chars "f8", chars "F8"),
  (chars "f9", chars "F9"),
  (chars "f10", chars "F10"),
  (chars "f11", chars "F11"),
  (chars "f12", chars "F12")]

/-- the `actions_mapping` dict of main.py, in source order; note the double
space inside the value for `Swipe LeftDown`, exactly as in the source. -/
def actions_mapping : List (List Char × List Char) := [
  (chars "Swipe Up", chars "gesture swipe up"),
  (chars "Swipe Down", chars "gesture swipe down"),
  (chars "Swipe Left", chars "gesture swipe left"),
  (chars "Swipe LeftUp", chars "gesture swipe left_up"),
  (chars "Swipe LeftDown", chars "gesture swipe  left_down"),
  (chars "Swipe Right", chars "gesture swipe right"),
  (chars "Swipe RightUp", chars "gesture swipe right_up"),
  (chars "Swipe RightDown", chars "gesture swipe right_down"),
  (chars "Pinch In", chars "gesture pinch in"),
  (chars "Pinch Out", chars "gesture pinch out"),
  (chars "Pinch Clockwise", chars "gesture pinch clockwise"),
  (chars "Pinch Anticlockwise", chars "gesture pinch anticlockwise")]

/-- the `reversed_mapping` dict of main.py, in source order. -/
def reversed_mapping : List (List Char × List Char) := [
  (chars "gesture swipe up", chars "Swipe Up"),
  (chars "gesture swipe down", chars "Swipe Down"),
  (chars "gesture swipe left", chars "Swipe Left"),
  (chars "gesture swipe left_up", chars "Swipe LeftUp"),
  (chars "gesture swipe left_down", chars "Swipe LeftDown"),
  (chars "gesture swipe right", chars "Swipe Right"),
  (chars "gesture swipe right_up", chars "Swipe RightUp"),
  (chars "gesture swipe right_down", chars "Swipe RightDown"),
  (chars "gesture pinch in", chars "Pinch In"),
  (chars "gesture pinch out", chars "Pinch Out"),
  (chars "gesture pinch clockwise", chars "Pinch Clockwise"),
  (chars "gesture pinch anticlockwise", chars "Pinch Anticlockwise")]

/-- accumulator form of Python `str.split('+')`: keeps empty segments. -/
def splitPlusAux (cur : List Char) : List Char → List (List Char)
  | [] => [cur.reverse]
  | c :: cs => if c = '+' then cur.reverse :: splitPlusAux [] cs else splitPlusAux (c :: cur) cs

/-- Python `str.split('+')`. -/
def splitPlus (l : List Char) : List (List Char) := splitPlusAux [] l

/-- the loop body of `find_key_combo`: lower a Qt key and map it through
`keys_mapping`, passing unknown keys through lowered. -/
def translateKey (qt_key : List Char) : List Char :=
  match pyLookup keys_mapping (pyLower qt_key) with
  | some v => v
  | none => pyLower qt_key

/-- `find_key_combo` of main.py: translate a `+`-joined Qt key combo into
xdotool syntax. -/
def find_key_combo (qt_key_combo : List Char) : List Char :=
  List.intercalate (chars "+") ((splitPlus qt_key_combo).map translateKey)

/-- verdict of the `fix_config` loop body on one line: `some true` means the
line is appended to the repaired config, `some false` means it is dropped,
`none` means the Python code raises an IndexError on that line. -/
def keepLine (line : List Char) : Option Bool :=
  if (chars "#").isPrefixOf line ∨ line = chars "\n" then some true
  else
    let splitted := pySplit (subTab line)
    match splitted.get? 0 with
    | none => none
    | some t0 =>
      if t0 = chars "gesture" ∨ t0 = chars "device" ∨ t0 = chars "swipe_threshold" then
        if t0 = chars "gesture" then
          match splitted.get? 4 with
          | none => none
          | some t4 =>
            if t4 = chars "xdotool" then
              match splitted.get? 5 with
              | none => none
              | some t5 => some (decide (t5 = chars "key" ∧ splitted.length = 7))
            else if containsSub (chars "qdbus") t4 then
              some ((chars "\"").isSuffixOf (splitted.getLastD []))
            else some true
        else some (decide (splitted.length = 2))
      else some false

/-- `fix_config` of main.py on an in-memory document; `none` models an
uncaught IndexError aborting the whole repair before anything is written. -/
def fix_config : List (List Char) → Option (List (List Char))
  | [] => some []
  | line :: rest =>
    match keepLine line with
    | none => none
    | some b =>
      match fix_config rest with
      | none => none
      | some out => some (if b then line :: out else out)

/-- one `re.sub` pass collapsing every run of the character `t` into a single
space; `prev` records whether the previous character belonged to a `t` run. -/
def collapseRunsAux (t : Char) (prev : Bool) : List Char → List Char
  | [] => []
  | c :: cs =>
    if c = t then
      if prev then collapseRunsAux t true cs else ' ' :: collapseRunsAux t true cs
    else c :: collapseRunsAux t false cs

/-- `resub_config` of main.py on the whole file content: collapse tab runs to
a single space, replace remaining tabs by spaces, collapse space runs. -/
def resub_config (conf : List Char) : List Char :=
  collapseRunsAux ' ' false (subTab (collapseRunsAux '\t' false conf))

/-- one row of the display model built by `prepare_config_for_displaying`:
the parallel lists gestures / fingers / shortcuts / buttons / actions,
with fingers kept as the raw token string exactly as in the source. -/
structure DisplayRow where
  gestures : List Char
  fingers : List Char
  shortcuts : List Char
  buttons : List Char
  actions : List Char
deriving DecidableEq

/-- scanner for Python `re.findall('"(.*?)"', line)`: `st = none` while
looking for an opening quote, `st = some acc` while reading a quoted body. -/
def findQuotedAux (st : Option (List Char)) : List Char → List (List Char)
  | [] => []
  | c :: cs =>
    match st with
    | none => if c = '\"' then findQuotedAux (some []) cs else findQuotedAux none cs
    | some acc =>
      if c = '\"' then acc.reverse :: findQuotedAux none cs
      else findQuotedAux (some (c :: acc)) cs

/-- contents of the double-quoted substrings of a line, first to last. -/
def findQuoted (l : List Char) : List (List Char) := findQuotedAux none l

/-- Python `' '.join(tokens)`. -/
def joinSpace (ts : List (List Char)) : List Char := List.intercalate (chars " ") ts

/-- the loop body of `prepare_config_for_displaying` on one `gesture` line;
`none` models an uncaught IndexError / KeyError on that line. -/
def parseGestureLine (line : List Char) : Option DisplayRow := do
  let splitted := pySplit line
  let t0 ← splitted.get? 0
  let t1 ← splitted.get? 1
  let t2 ← splitted.get? 2
  let gesture ← pyLookup reversed_mapping (t0 ++ ' ' :: t1 ++ ' ' :: t2)
  let t3 ← splitted.get? 3
  let t4 ← splitted.get? 4
  let isXdotoolKey ←
    if t4 = chars "xdotool" then do
      let t5 ← splitted.get? 5
      pure (decide (t5 = chars "key"))
    else pure false
  let pair ←
    if isXdotoolKey then do
      let t6 ← splitted.get? 6
      pure (chars "Keyboard shortcut", t6)
    else if containsSub (chars "qdbus") t4 then do
      let plasma ← (findQuoted line).get? 0
      if plasma ≠ [] then
        pure (chars "Plasma action", plasma)
      else do
        let lastTok ← splitted.getLast?
        pure (chars "Plasma action", lastTok.filter (fun c => c ≠ '\"'))
    else
      pure (chars "Command", joinSpace (splitted.drop 4))
  pure ⟨gesture, t3, pair.2, t0 ++ ' ' :: t1 ++ ' ' :: t2 ++ ' ' :: t3, pair.1⟩

/-- `prepare_config_for_displaying` over a whole document: only lines starting
with `gesture` are decoded, all other lines are skipped. -/
def prepare_config_for_displaying : List (List Char) → Option (List DisplayRow)
  | [] => some []
  | line :: rest =>
    if (chars "gesture").isPrefixOf line then
      match parseGestureLine line, prepare_config_for_displaying rest with
      | some row, some rows => some (row :: rows)
      | _, _ => none
    else prepare_config_for_displaying rest

/-- Python `<` on strings: lexicographic comparison by code point. -/
def pyLtStr : List Char → List Char → Bool
  | _, [] => false
  | [], _ :: _ => true
  | a :: as, b :: bs => if a < b then true else if b < a then false else pyLtStr as bs

/-- Python `<` on the `[gesture, (fingers, shortcut, button, action)]` lists
built by `sort_config`; every component is a string, so the finger counts
compare as text. -/
def pyLtRow (a b : DisplayRow) : Bool :=
  pyLtStr a.gestures b.gestures ||
    (a.gestures == b.gestures &&
      (pyLtStr a.fingers b.fingers ||
        (a.fingers == b.fingers &&
          (pyLtStr a.shortcuts b.shortcuts ||
            (a.shortcuts == b.shortcuts &&
              (pyLtStr a.buttons b.buttons ||
                (a.buttons == b.buttons && pyLtStr a.actions b.actions)))))))

/-- insertion into a list sorted by `pyLtRow`; because `pyLtRow` is a total
strict order whose ties are literal equality, any stable sort agrees with
Python's `sorted` here. -/
def pyInsert (a : DisplayRow) : List DisplayRow → List DisplayRow
  | [] => [a]
  | b :: bs => if pyLtRow b a then b :: pyInsert a bs else a :: b :: bs

/-- `sort_config` of main.py: sort the display rows by Python list order. -/
def sort_config : List DisplayRow → List DisplayRow
  | [] => []
  | a :: as => pyInsert a (sort_config as)

/-- the `'{} {}'.format(action, fingers)` match key of `save_changes` and the
accessible-name key of `delete_entry`. -/
def keyOf (action : List Char) (fingers : Nat) : List Char :=
  action ++ ' ' :: natStr fingers

/-- the `'{} {} {}\n'.format(action, fingers, shortcut)` line appended by
`save_changes`. -/
def newLineOf (action : List Char) (fingers : Nat) (shortcut : List Char) : List Char :=
  action ++ ' ' :: natStr fingers ++ ' ' :: shortcut ++ ['\n']

/-- `EditGestures.save_changes` of main.py on an in-memory document: when all
three inputs are truthy, drop every line starting with the key and append the
new line; otherwise the file is left untouched. -/
def save_changes (action : List Char) (fingers : Nat) (shortcut : List Char)
    (conf : List (List Char)) : List (List Char) :=
  if action ≠ [] ∧ fingers ≠ 0 ∧ shortcut ≠ [] then
    (conf.filter fun l => !(keyOf action fingers).isPrefixOf l) ++
      [newLineOf action fingers shortcut]
  else conf

/-- `GesturesApp.delete_entry` of main.py on an in-memory document: drop every
line starting with the button's accessible-name key. -/
def delete_entry (key : List Char) (conf : List (List Char)) : List (List Char) :=
  conf.filter fun l => !key.isPrefixOf l

/-- a list is a prefix (in the `isPrefixOf` sense) of itself followed by
anything; used for the `startswith` reasoning of upsert and delete. -/
theorem isPrefixOf_self_append (a b : List Char) : a.isPrefixOf (a ++ b) = true := by
  induction a with
  | nil => simp [List.isPrefixOf]
  | cons c cs ih => simp [List.isPrefixOf, ih]

/-- the appended line of `save_changes` is the match key followed by a space,
the shortcut and a newline. -/
theorem newLineOf_decomp (action : List Char) (fingers : Nat) (shortcut : List Char) :
    newLineOf action fingers shortcut = keyOf action fingers ++ (' ' :: (shortcut ++ ['\n'])) := by
  simp [newLineOf, keyOf, List.append_assoc]

/-- after one `save_changes` call with truthy inputs, exactly one line starts
with the match key and any line starting with it is the appended line. -/
theorem save_changes_spec (conf : List (List Char)) (action : List Char) (fingers : Nat)
    (shortcut : List Char) (ha : action ≠ []) (hf : fingers ≠ 0) (hs : shortcut ≠ []) :
    (save_changes action fingers shortcut conf).countP
        (fun l => (keyOf action fingers).isPrefixOf l) = 1 ∧
    ∀ l ∈ save_changes action fingers shortcut conf,
      (keyOf action fingers).isPrefixOf l = true → l = newLineOf action fingers shortcut := by
  have hnew : (keyOf action fingers).isPrefixOf (newLineOf action fingers shortcut) = true := by
    rw [newLineOf_decomp]; exact isPrefixOf_self_append _ _
  rw [save_changes, if_pos ⟨ha, hf, hs⟩]
  constructor
  · rw [List.countP_append]
    have h0 : (conf.filter fun l => !(keyOf action fingers).isPrefixOf l).countP
        (fun l => (keyOf action fingers).isPrefixOf l) = 0 := by
      rw [List.countP_eq_zero]
      intro a ha'
      rcases List.mem_filter.mp ha' with ⟨_, hb⟩
      simp only [Bool.not_eq_true'] at hb
      simp [hb]
    rw [h0]
    simp [List.countP_cons, hnew]
  · intro l hl hpre
    rcases List.mem_append.mp hl with hmem | hmem
    · rcases List.mem_filter.mp hmem with ⟨_, hb⟩
      simp only [Bool.not_eq_true'] at hb
      rw [hpre] at hb
      cases hb
    · simpa using hmem

/-- C2: for every document and truthy inputs, the document produced by
`save_changes` contains exactly one line whose prefix equals the key
`"<action> <fingers>"`, namely the newly appended line; a second call with
the same key and a different payload again leaves exactly one such line,
holding the latest payload (replace-all-matching-then-append). -/
theorem save_changes_upsert_unique (conf : List (List Char)) (action : List Char)
    (fingers : Nat) (s1 s2 : List Char)
    (ha : action ≠ []) (hf : fingers ≠ 0) (h1 : s1 ≠ []) (h2 : s2 ≠ []) :
    ((save_changes action fingers s1 conf).countP
        (fun l => (keyOf action fingers).isPrefixOf l) = 1) ∧
    (∀ l ∈ save_changes action fingers s1 conf,
        (keyOf action fingers).isPrefixOf l = true → l = newLineOf action fingers s1) ∧
    ((save_changes action fingers s2 (save_changes action fingers s1 conf)).countP
        (fun l => (keyOf action fingers).isPrefixOf l) = 1) ∧
    (∀ l ∈ save_changes action fingers s2 (save_changes action fingers s1 conf),
        (keyOf action fingers).isPrefixOf l = true → l = newLineOf action fingers s2) :=
  ⟨(save_changes_spec conf action fingers s1 ha hf h1).1,
   (save_changes_spec conf action fingers s1 ha hf h1).2,
   (save_changes_spec _ action fingers s2 ha hf h2).1,
   (save_changes_spec _ action fingers s2 ha hf h2).2⟩

/-- witness for C2 at a concrete document and key. -/
theorem save_changes_upsert_unique_witness :
    (save_changes (chars "gesture swipe up") 3 (chars "xdotool key b")
        [chars "gesture swipe up 3 xdotool key a\n"]).countP
      (fun l => (keyOf (chars "gesture swipe up") 3).isPrefixOf l) = 1 :=
  (save_changes_upsert_unique [chars "gesture swipe up 3 xdotool key a\n"]
      (chars "gesture swipe up") 3 (chars "xdotool key b") (chars "xdotool key c")
      (by decide) (by decide) (by decide) (by decide)).1

/-- C10: both upsert and delete decide removal by raw string-prefix matching
with no token boundary after the finger count, so a key `"<action> <n>"` also
removes every line whose finger token merely extends the decimal digits of
`n` (for any extra digit `d` and any tail). -/
theorem prefix_match_extends_digits (conf : List (List Char)) (action : List Char)
    (n : Nat) (shortcut : List Char) (d : Char) (rest : List Char)
    (hd : d.isDigit = true) :
    (keyOf action n ++ d :: rest) ∉ delete_entry (keyOf action n) conf ∧
    (action ≠ [] → n ≠ 0 → shortcut ≠ [] →
      (keyOf action n ++ d :: rest) ∉ save_changes action n shortcut conf) := by
  have hpre : (keyOf action n).isPrefixOf (keyOf action n ++ d :: rest) = true :=
    isPrefixOf_self_append _ _
  have hfilter : ∀ cf : List (List Char),
      (keyOf action n ++ d :: rest) ∉ cf.filter (fun l => !(keyOf action n).isPrefixOf l) := by
    intro cf hmem
    rcases List.mem_filter.mp hmem with ⟨_, hb⟩
    rw [hpre] at hb
    cases hb
  constructor
  · rw [delete_entry]; exact hfilter conf
  · intro ha hn hs hmem
    rw [save_changes, if_pos ⟨ha, hn, hs⟩] at hmem
    rcases List.mem_append.mp hmem with hmem | hmem
    · exact hfilter conf hmem
    · simp only [List.mem_singleton] at hmem
      rw [newLineOf_decomp] at hmem
      have hds : d :: rest = ' ' :: (shortcut ++ ['\n']) := List.append_cancel_left hmem
      have hd' : d = ' ' := by injection hds
      rw [hd'] at hd
      cases hd

/-- witness for C10: deleting with key `gesture swipe up 3` also removes the
30-finger line. -/
theorem prefix_match_extends_digits_witness :
    (chars "gesture swipe up 30 xdotool key x\n") ∉
      delete_entry (keyOf (chars "gesture swipe up") 3)
        [chars "gesture swipe up 30 xdotool key x\n"] := by
  have h := (prefix_match_extends_digits [chars "gesture swipe up 30 xdotool key x\n"]
      (chars "gesture swipe up") 3 (chars "s") '0' (chars " xdotool key x\n") (by decide)).1
  have e : keyOf (chars "gesture swipe up") 3 ++ '0' :: chars " xdotool key x\n" =
      chars "gesture swipe up 30 xdotool key x\n" := by decide
  rw [e] at h
  exact h

/-- C6: whenever the repair completes, the document it writes is a
line-order-preserving subsequence of the input document. -/
theorem fix_config_output_sublist (conf out : List (List Char))
    (h : fix_config conf = some out) : out.Sublist conf := by
  induction conf generalizing out with
  | nil =>
    simp only [fix_config, Option.some.injEq] at h
    subst h
    exact List.Sublist.refl []
  | cons line rest ih =>
    rw [fix_config] at h
    cases hk : keepLine line with
    | none => rw [hk] at h; cases h
    | some b =>
      rw [hk] at h
      cases hr : fix_config rest with
      | none => rw [hr] at h; cases h
      | some o =>
        rw [hr] at h
        simp only [Option.some.injEq] at h
        subst h
        cases b with
        | true => exact List.Sublist.cons₂ line (ih o hr)
        | false => exact List.Sublist.cons line (ih o hr)

/-- witness for C6 at a concrete two-line document. -/
theorem fix_config_output_sublist_witness :
    List.Sublist [chars "# c\n"] [chars "# c\n", chars "junk\n"] :=
  fix_config_output_sublist [chars "# c\n", chars "junk\n"] [chars "# c\n"] (by decide)

/-- C3: the key-combo translator evaluates the two reference examples as the
spec states, is structurally a split on `+`, per-segment translation and
re-join, substitutes exactly the mapped names for segments whose lowered form
is a key of `keys_mapping`, and passes every other segment through
lower-cased; it is a total function, so it never fails on any input. -/
theorem find_key_combo_translation :
    find_key_combo (chars "Ctrl+Meta+PgDown") = chars "ctrl+super+Page_Down" ∧
    find_key_combo (chars "Alt+Q") = chars "alt+q" ∧
    (∀ combo, find_key_combo combo =
      List.intercalate (chars "+") ((splitPlus combo).map translateKey)) ∧
    (∀ seg v, pyLookup keys_mapping (pyLower seg) = some v → translateKey seg = v) ∧
    (∀ seg, pyLookup keys_mapping (pyLower seg) = none → translateKey seg = pyLower seg) := by
  refine ⟨by decide, by decide, fun _ => rfl, ?_, ?_⟩
  · intro seg v h
    simp [translateKey, h]
  · intro seg h
    simp [translateKey, h]

/-- witness for C3: a mapped segment and an unmapped segment. -/
theorem find_key_combo_translation_witness :
    translateKey (chars "Meta") = chars "super" ∧
    translateKey (chars "Q") = pyLower (chars "Q") :=
  ⟨find_key_combo_translation.2.2.2.1 (chars "Meta") (chars "super") (by decide),
   find_key_combo_translation.2.2.2.2 (chars "Q") (by decide)⟩

/-- C5 fails on the code: `fix_config` raises an IndexError (modelled `none`)
on a whitespace-only line that is not exactly a bare newline, because
`splitted[0]` is evaluated on an empty token list, and likewise on a
`gesture` line with fewer than five tokens, because `splitted[4]` is
evaluated; neither line is dropped silently as the claim states, and its own
docstring says such lines are deleted. -/
theorem fix_config_raises_on_bad_lines :
    fix_config [chars "   \n"] = none ∧
    fix_config [chars "gesture swipe up 3\n"] = none ∧
    keepLine (chars "   \n") = none ∧
    keepLine (chars "gesture swipe up 3\n") = none := by decide

/-- C8 fails on the code: `actions_mapping` sends the label `Swipe LeftDown`
to the canonical phrase `gesture swipe  left_down` (with two spaces), which
is not a key of `reversed_mapping`, so the round trip raises a KeyError in
that direction and fails to reproduce the single-space phrase in the other. -/
theorem actions_mapping_not_inverse_on_swipe_leftdown :
    pyLookup actions_mapping (chars "Swipe LeftDown") =
      some (chars "gesture swipe  left_down") ∧
    pyLookup reversed_mapping (chars "gesture swipe  left_down") = none ∧
    pyLookup reversed_mapping (chars "gesture swipe left_down") =
      some (chars "Swipe LeftDown") ∧
    pyLookup actions_mapping (chars "Swipe LeftDown") ≠
      some (chars "gesture swipe left_down") := by decide

/-- C9 fails on the code: the finger counts sorted by `sort_config` are the
raw tokens stored by `prepare_config_for_displaying` (strings, although both
docstrings call them ints), so with equal labels the 10-finger row sorts
before the 2-finger row by text order, not after it by integer order. -/
theorem sort_config_compares_finger_tokens_as_text :
    sort_config
      [⟨chars "Swipe Up", chars "2", chars "a", chars "gesture swipe up 2",
        chars "Keyboard shortcut"⟩,
       ⟨chars "Swipe Up", chars "10", chars "a", chars "gesture swipe up 10",
        chars "Keyboard shortcut"⟩] =
      [⟨chars "Swipe Up", chars "10", chars "a", chars "gesture swipe up 10",
        chars "Keyboard shortcut"⟩,
       ⟨chars "Swipe Up", chars "2", chars "a", chars "gesture swipe up 2",
        chars "Keyboard shortcut"⟩] ∧
    pyLtStr (chars "10") (chars "2") = true := by decide

/-- C4 as stated fails on the code: on a gesture line whose dispatch token
contains `qdbus` but which has no double-quoted substring, the parse raises
an IndexError (`re.findall(...)[0]` on an empty match list) instead of
falling back to the last token; the claimed fallback would have produced the
payload `Expose` here. -/
theorem parse_qdbus_no_quote_counterexample :
    parseGestureLine (chars "gesture swipe down 3 qdbus a b Expose\n") = none ∧
    containsSub (chars "qdbus")
      ((pySplit (chars "gesture swipe down 3 qdbus a b Expose\n")).getD 4 []) = true ∧
    findQuoted (chars "gesture swipe down 3 qdbus a b Expose\n") = [] := by decide

/-- C4 amended: on a gesture line whose dispatch token contains `qdbus`, the
parse returns as payload the first double-quoted substring of the line when
one exists and it is non-empty; when the first double-quoted substring is
empty it falls back to the line's last token with quote characters stripped;
and when the line has no double-quoted substring at all the parse fails
(raises) rather than falling back. -/
theorem parse_qdbus_payload_amended (line t0 t1 t2 t3 t4 g : List Char)
    (h0 : (pySplit line).get? 0 = some t0)
    (h1 : (pySplit line).get? 1 = some t1)
    (h2 : (pySplit line).get? 2 = some t2)
    (h3 : (pySplit line).get? 3 = some t3)
    (h4 : (pySplit line).get? 4 = some t4)
    (hg : pyLookup reversed_mapping (t0 ++ ' ' :: t1 ++ ' ' :: t2) = some g)
    (hq : containsSub (chars "qdbus") t4 = true) :
    (findQuoted line = [] → parseGestureLine line = none) ∧
    (∀ m ms, findQuoted line = m :: ms →
      parseGestureLine line = some ⟨g, t3,
        (if m = [] then ((pySplit line).getLastD []).filter (fun c => c ≠ '\"') else m),
        t0 ++ ' ' :: t1 ++ ' ' :: t2 ++ ' ' :: t3, chars "Plasma action"⟩) := by
  have hx : ¬t4 = chars "xdotool" := by
    intro e
    rw [e] at hq
    exact absurd hq (by decide)
  have hlast : (pySplit line).getLast? = some ((pySplit line).getLastD []) := by
    have hne : pySplit line ≠ [] := by
      intro e
      rw [e] at h0
      cases h0
    rw [List.getLastD_eq_getLast?]
    cases hl : (pySplit line).getLast? with
    | none => exact absurd (List.getLast?_eq_none_iff.mp hl) hne
    | some x => rfl
  constructor
  · intro hfq
    simp only [parseGestureLine, h0, h1, h2, h3, h4, hg, Option.bind_eq_bind, Option.some_bind]
    rw [if_neg hx]
    simp only [Option.pure_def, Option.some_bind]
    rw [if_neg (by simp), if_pos hq, hfq]
    simp
  · intro m ms hfq
    simp only [parseGestureLine, h0, h1, h2, h3, h4, hg, Option.bind_eq_bind, Option.some_bind]
    rw [if_neg hx]
    simp only [Option.pure_def, Option.some_bind]
    rw [if_neg (by simp), if_pos hq, hfq]
    simp only [List.get?_cons_zero, Option.some_bind]
    by_cases hm : m = []
    · subst hm
      rw [if_neg (by simp), hlast]
      simp
    · rw [if_pos hm]
      simp [hm]

/-- witness for the amended C4 at a concrete quoted qdbus line. -/
theorem parse_qdbus_payload_amended_witness :
    parseGestureLine (chars "gesture swipe up 3 qdbus x y \"Expose\"\n") =
      some ⟨chars "Swipe Up", chars "3", chars "Expose", chars "gesture swipe up 3",
        chars "Plasma action"⟩ := by
  have h := (parse_qdbus_payload_amended (chars "gesture swipe up 3 qdbus x y \"Expose\"\n")
      (chars "gesture") (chars "swipe") (chars "up") (chars "3") (chars "qdbus")
      (chars "Swipe Up") (by decide) (by decide) (by decide) (by decide) (by decide)
      (by decide) (by decide)).2 (chars "Expose") [] (by decide)
  rw [h, if_neg (by decide)]
  decide

/-- a run-collapsing pass is the identity on strings not containing the
collapsed character. -/
theorem collapseRunsAux_of_not_mem (t : Char) : ∀ (l : List Char), t ∉ l →
    ∀ prev, collapseRunsAux t prev l = l := by
  intro l
  induction l with
  | nil => intro _ prev; rfl
  | cons c cs ih =>
    intro h prev
    have hc : ¬c = t := by intro e; exact h (e ▸ List.mem_cons_self c cs)
    have hcs : t ∉ cs := fun m => h (List.mem_cons_of_mem c m)
    simp [collapseRunsAux, hc, ih hcs false]

/-- replacing tabs by spaces leaves no tab behind. -/
theorem not_tab_subTab (l : List Char) : '\t' ∉ subTab l := by
  intro h
  rcases List.mem_map.mp h with ⟨c, _, hc⟩
  by_cases h' : c = '\t'
  · rw [if_pos h'] at hc
    exact absurd hc (by decide)
  · rw [if_neg h'] at hc
    exact h' hc

/-- the tab-replacement pass is the identity on tab-free strings. -/
theorem subTab_of_not_mem : ∀ (l : List Char), '\t' ∉ l → subTab l = l := by
  intro l
  induction l with
  | nil => intro _; rfl
  | cons c cs ih =>
    intro h
    have hc : ¬c = '\t' := by intro e; exact h (e ▸ List.mem_cons_self c cs)
    have hcs : '\t' ∉ cs := fun m => h (List.mem_cons_of_mem c m)
    simp [subTab, hc]
    simpa [subTab] using ih hcs

/-- collapsing space runs introduces no tab into a tab-free string. -/
theorem not_tab_collapseSpaces : ∀ (l : List Char), '\t' ∉ l →
    ∀ prev, '\t' ∉ collapseRunsAux ' ' prev l := by
  intro l
  induction l with
  | nil => intro _ prev h'; cases h'
  | cons c cs ih =>
    intro h prev
    have hc : ¬c = '\t' := by intro e; exact h (e ▸ List.mem_cons_self c cs)
    have hcs : '\t' ∉ cs := fun m => h (List.mem_cons_of_mem c m)
    by_cases hsp : c = ' '
    · subst hsp
      cases prev with
      | true => simpa [collapseRunsAux] using ih hcs true
      | false =>
        simp only [collapseRunsAux, if_pos rfl]
        intro hmem
        rcases List.mem_cons.mp hmem with h1 | h1
        · exact absurd h1 (by decide)
        · exact ih hcs true h1
    · simp only [collapseRunsAux, if_neg hsp]
      intro hmem
      rcases List.mem_cons.mp hmem with h1 | h1
      · exact hc h1.symm
      · exact ih hcs false h1

/-- a string has no two adjacent spaces. -/
def noDbl : List Char → Bool
  | c1 :: c2 :: cs => !(c1 == ' ' && c2 == ' ') && noDbl (c2 :: cs)
  | _ => true

/-- the space-collapsing pass fixes every string with no adjacent spaces
(for the resumed state, provided the string does not start with a space). -/
theorem collapseSpaces_fix : ∀ (l : List Char), noDbl l = true →
    collapseRunsAux ' ' false l = l ∧
    (l.head? ≠ some ' ' → collapseRunsAux ' ' true l = l) := by
  intro l
  induction l with
  | nil => intro _; exact ⟨rfl, fun _ => rfl⟩
  | cons c cs ih =>
    intro h
    have htail : noDbl cs = true := by
      cases cs with
      | nil => rfl
      | cons c2 cs2 =>
        simp only [noDbl, Bool.and_eq_true] at h
        exact h.2
    by_cases hc : c = ' '
    · subst hc
      have hd : cs.head? ≠ some ' ' := by
        cases cs with
        | nil => simp
        | cons c2 cs2 =>
          intro he
          simp only [List.head?_cons, Option.some.injEq] at he
          rw [he] at h
          simp [noDbl] at h
      constructor
      · have e : collapseRunsAux ' ' false (' ' :: cs) = ' ' :: collapseRunsAux ' ' true cs := rfl
        rw [e, (ih htail).2 hd]
      · intro hh
        simp at hh
    · constructor
      · show collapseRunsAux ' ' false (c :: cs) = c :: cs
        simp only [collapseRunsAux, if_neg hc]
        rw [(ih htail).1]
      · intro _
        show collapseRunsAux ' ' true (c :: cs) = c :: cs
        simp only [collapseRunsAux, if_neg hc]
        rw [(ih htail).1]

/-- the space-collapsing pass outputs a string with no adjacent spaces, and
in the resumed state its output never starts with a space. -/
theorem collapseSpaces_noDbl : ∀ (l : List Char) (prev : Bool),
    noDbl (collapseRunsAux ' ' prev l) = true ∧
    (prev = true → (collapseRunsAux ' ' prev l).head? ≠ some ' ') := by
  intro l
  induction l with
  | nil => intro prev; exact ⟨rfl, by simp [collapseRunsAux]⟩
  | cons c cs ih =>
    intro prev
    by_cases hc : c = ' '
    · subst hc
      cases prev with
      | true =>
        refine ⟨?_, fun _ => ?_⟩
        · simpa [collapseRunsAux] using (ih true).1
        · simpa [collapseRunsAux] using (ih true).2 rfl
      | false =>
        refine ⟨?_, by simp⟩
        have e : collapseRunsAux ' ' false (' ' :: cs) = ' ' :: collapseRunsAux ' ' true cs := rfl
        rw [e]
        cases hXl : collapseRunsAux ' ' true cs with
        | nil => rfl
        | cons x xs =>
          have hx : ¬x = ' ' := by
            have h2 := (ih true).2 rfl
            rw [hXl] at h2
            simpa using h2
          have hnd := (ih true).1
          rw [hXl] at hnd
          show noDbl (' ' :: x :: xs) = true
          simp [noDbl, hx, hnd]
    · refine ⟨?_, fun _ => ?_⟩
      · show noDbl (collapseRunsAux ' ' prev (c :: cs)) = true
        simp only [collapseRunsAux, if_neg hc]
        cases hXl : collapseRunsAux ' ' false cs with
        | nil => rfl
        | cons x xs =>
          have hnd := (ih false).1
          rw [hXl] at hnd
          show noDbl (c :: x :: xs) = true
          simp [noDbl, hc, hnd]
      · show (collapseRunsAux ' ' prev (c :: cs)).head? ≠ some ' '
        simp only [collapseRunsAux, if_neg hc]
        simp [hc]

/-- C7: the whitespace normalization is idempotent: applying `resub_config`
twice to any file content yields exactly the result of applying it once. -/
theorem resub_config_idempotent (s : List Char) :
    resub_config (resub_config s) = resub_config s := by
  have h1 : '\t' ∉ resub_config s :=
    not_tab_collapseSpaces _ (not_tab_subTab _) false
  show collapseRunsAux ' ' false (subTab (collapseRunsAux '\t' false (resub_config s)))
      = resub_config s
  rw [collapseRunsAux_of_not_mem '\t' (resub_config s) h1 false]
  rw [subTab_of_not_mem (resub_config s) h1]
  exact (collapseSpaces_fix (resub_config s) (collapseSpaces_noDbl _ false).1).1

/-- tokenizing is insensitive to first replacing tabs by spaces. -/
theorem pySplitAux_subTab : ∀ (l : List Char) (cur : List Char),
    pySplitAux cur (subTab l) = pySplitAux cur l := by
  intro l
  induction l with
  | nil => intro cur; rfl
  | cons c cs ih =>
    intro cur
    have e : subTab (c :: cs) = (if c = '\t' then ' ' else c) :: subTab cs := rfl
    rw [e]
    by_cases hc : c = '\t'
    · subst hc
      rw [if_pos rfl]
      have h1 : isPySpace ' ' = true := rfl
      have h2 : isPySpace '\t' = true := rfl
      by_cases hcur : cur = []
      · simp [pySplitAux, h1, h2, hcur, ih]
      · simp [pySplitAux, h1, h2, hcur, ih]
    · rw [if_neg hc]
      by_cases hsp : isPySpace c = true
      · by_cases hcur : cur = []
        · simp [pySplitAux, hsp, hcur, ih]
        · simp [pySplitAux, hsp, hcur, ih]
      · simp [pySplitAux, hsp, ih]

/-- whitespace tokens of a line are unchanged by the tab replacement done
inside the repair routine. -/
theorem pySplit_subTab (l : List Char) : pySplit (subTab l) = pySplit l :=
  pySplitAux_subTab l []

/-- when a token is already being read, the token list is nonempty and its
first token extends the characters read so far. -/
theorem pySplitAux_head_of_ne : ∀ (l : List Char) (acc : List Char), acc ≠ [] →
    ∃ tok rest, pySplitAux acc l = tok :: rest ∧ acc.reverse <+: tok := by
  intro l
  induction l with
  | nil =>
    intro acc hacc
    refine ⟨acc.reverse, [], ?_, List.prefix_refl _⟩
    simp [pySplitAux, hacc]
  | cons c cs ih =>
    intro acc hacc
    by_cases hsp : isPySpace c = true
    · refine ⟨acc.reverse, pySplitAux [] cs, ?_, List.prefix_refl _⟩
      simp [pySplitAux, hsp, hacc]
    · obtain ⟨tok, rest, heq, hpre⟩ := ih (c :: acc) (by simp)
      refine ⟨tok, rest, ?_, ?_⟩
      · simpa [pySplitAux, hsp] using heq
      · refine List.IsPrefix.trans ?_ hpre
        rw [List.reverse_cons]
        exact List.prefix_append _ _

/-- a line whose first whitespace token does not begin with `#` neither
starts with `#` nor is the bare newline line. -/
theorem line_shape_of_first_token (line : List Char) (t0 : List Char)
    (h0 : (pySplit line).get? 0 = some t0) (ht : t0.head? ≠ some '#') :
    (chars "#").isPrefixOf line = false ∧ line ≠ chars "\n" := by
  constructor
  · cases line with
    | nil => rfl
    | cons c cs =>
      by_cases hc : c = '#'
      · subst hc
        exfalso
        have e : pySplit ('#' :: cs) = pySplitAux ['#'] cs := by
          have : isPySpace '#' = false := rfl
          simp [pySplit, pySplitAux, this]
        obtain ⟨tok, rest, heq, hpre⟩ := pySplitAux_head_of_ne cs ['#'] (by simp)
        rw [e, heq] at h0
        simp only [List.get?_cons_zero, Option.some.injEq] at h0
        subst h0
        obtain ⟨t, ht'⟩ := hpre
        rw [← ht'] at ht
        simp at ht
      · show List.isPrefixOf ['#'] (c :: cs) = false
        simp only [List.isPrefixOf]
        simp [Ne.symm hc]
  · intro hline
    rw [hline] at h0
    have : (pySplit (chars "\n")).get? 0 = (none : Option (List Char)) := rfl
    rw [this] at h0
    cases h0

/-- C1: a line whose first whitespace token is `gesture` is kept by the
repair exactly when its dispatch token is `xdotool` followed by `key` with
exactly 7 tokens, or contains `qdbus` with the last token ending in a double
quote, or is any other dispatcher (kept unconditionally); a line whose first
token is `device` or `swipe_threshold` is kept exactly when it has exactly
two whitespace tokens. -/
theorem gesture_and_directive_lines_kept_iff (line : List Char) :
    ((pySplit line).get? 0 = some (chars "gesture") →
      (keepLine line = some true ↔
        ((pySplit line).get? 4 = some (chars "xdotool") ∧
          (pySplit line).get? 5 = some (chars "key") ∧ (pySplit line).length = 7) ∨
        (∃ t4, (pySplit line).get? 4 = some t4 ∧ containsSub (chars "qdbus") t4 = true ∧
          (chars "\"").isSuffixOf ((pySplit line).getLastD []) = true) ∨
        (∃ t4, (pySplit line).get? 4 = some t4 ∧ t4 ≠ chars "xdotool" ∧
          containsSub (chars "qdbus") t4 = false))) ∧
    (((pySplit line).get? 0 = some (chars "device") ∨
      (pySplit line).get? 0 = some (chars "swipe_threshold")) →
      (keepLine line = some true ↔ (pySplit line).length = 2)) := by
  have hsub : pySplit (subTab line) = pySplit line := pySplit_subTab line
  constructor
  · intro h0
    obtain ⟨hpre, hnl⟩ := line_shape_of_first_token line (chars "gesture") h0 (by decide)
    rw [keepLine, if_neg (by simp [hpre, hnl])]
    simp only [hsub, h0]
    rw [if_pos (Or.inl trivial), if_pos trivial]
    rcases h4 : (pySplit line).get? 4 with _ | t4
    · simp [h4]
    · simp only [h4]
      by_cases hx : t4 = chars "xdotool"
      · subst hx
        rw [if_pos rfl]
        have hnq : containsSub (chars "qdbus") (chars "xdotool") = false := by decide
        rcases h5 : (pySplit line).get? 5 with _ | t5
        · simp [h4, h5, hnq]
        · simp only [h5]
          simp [h4, h5, hnq]
      · rw [if_neg hx]
        by_cases hq : containsSub (chars "qdbus") t4 = true
        · rw [if_pos hq]
          simp [h4, hx, hq]
        · have hq' : containsSub (chars "qdbus") t4 = false := by
            simpa using hq
          rw [if_neg hq]
          simp [h4, hx, hq']
  · intro hdev
    have hkey : ∃ t0, (pySplit line).get? 0 = some t0 ∧
        (t0 = chars "device" ∨ t0 = chars "swipe_threshold") := by
      rcases hdev with h | h
      · exact ⟨chars "device", h, Or.inl rfl⟩
      · exact ⟨chars "swipe_threshold", h, Or.inr rfl⟩
    obtain ⟨t0, h0, ht0⟩ := hkey
    have hhash : t0.head? ≠ some '#' := by
      rcases ht0 with h | h <;> subst h <;> decide
    obtain ⟨hpre, hnl⟩ := line_shape_of_first_token line t0 h0 hhash
    have hng : ¬t0 = chars "gesture" := by
      rcases ht0 with h | h <;> subst h <;> decide
    rw [keepLine, if_neg (by simp [hpre, hnl])]
    simp only [hsub, h0]
    rw [if_pos (Or.inr ht0), if_neg hng]
    simp

/-- witness for C1: a valid xdotool gesture line is kept and a two-token
device line is kept. -/
theorem gesture_and_directive_lines_kept_iff_witness :
    keepLine (chars "gesture pinch in 2 xdotool key ctrl+alt+t\n") = some true ∧
    keepLine (chars "device all\n") = some true :=
  ⟨((gesture_and_directive_lines_kept_iff
      (chars "gesture pinch in 2 xdotool key ctrl+alt+t\n")).1 (by decide)).mpr
      (Or.inl (by decide)),
   ((gesture_and_directive_lines_kept_iff (chars "device all\n")).2
      (Or.inl (by decide))).mpr (by decide)⟩
